import Mathlib

/-!
Verification development for the symplectic (leapfrog) integrator interface of
`galpy/util/bovy_symplecticode.h`.

The repository fragment is a declaration-only C header: it declares
`leapfrog`, `leapfrog_leapq`, `leapfrog_leapp`, `save_qp` and
`leapfrog_estimate_step`, but contains no function bodies.  We therefore embed
two layers:

1. the *declared C surface* itself, as data (`CType`, `CDecl` and one
   `CDecl` value per declaration, transcribed from the header), so that claims
   about the shape of the interface can be settled directly against the source;

2. a *behavioural model* of the integrator, modelled from the specification
   (the bodies are absent from the source fragment).  C `double` arithmetic is
   embedded as exact rational arithmetic; a C array of length `dim` is embedded
   as a function `ℕ → ℚ` whose values at indices `≥ dim` are not part of the
   abstraction; side effects are unrepresentable (all operations are pure
   functions returning the written result).
-/

/-! ### The declared C surface, transcribed from the header -/

/-- The C parameter/return types occurring in `bovy_symplecticode.h`:
`int`, `double`, `double *`, `int *`, `void`, and the acceleration
function-pointer type `void (*)(int, double, double *, double *, int, double *)`. -/
inductive CType where
  | cInt : CType
  | cDouble : CType
  | cPtrDouble : CType
  | cPtrInt : CType
  | cVoid : CType
  | cFuncPtr : CType
deriving DecidableEq

/-- A C function declaration: return type and parameter types, in order. -/
structure CDecl where
  ret : CType
  params : List CType
deriving DecidableEq

/-- Declaration of `leapfrog` as written in the header:
`void leapfrog(void (*func)(int, double, double *, double *, int, double *),
int, double *, int, double *, int, double *, double, double, double *)`. -/
def leapfrog_decl : CDecl :=
  { ret := CType.cVoid,
    params := [CType.cFuncPtr, CType.cInt, CType.cPtrDouble, CType.cInt,
               CType.cPtrDouble, CType.cInt, CType.cPtrDouble, CType.cDouble,
               CType.cDouble, CType.cPtrDouble] }

/-- Declaration of `leapfrog_leapq` as written in the header:
`void leapfrog_leapq(int, double *, double *, double, double *)`. -/
def leapfrog_leapq_decl : CDecl :=
  { ret := CType.cVoid,
    params := [CType.cInt, CType.cPtrDouble, CType.cPtrDouble, CType.cDouble,
               CType.cPtrDouble] }

/-- Declaration of `leapfrog_leapp` as written in the header:
`void leapfrog_leapp(int, double *, double, double *, double *)`. -/
def leapfrog_leapp_decl : CDecl :=
  { ret := CType.cVoid,
    params := [CType.cInt, CType.cPtrDouble, CType.cDouble, CType.cPtrDouble,
               CType.cPtrDouble] }

/-- Declaration of `save_qp` as written in the header:
`inline void save_qp(int dim, double *qo, double *po, double *result)`. -/
def save_qp_decl : CDecl :=
  { ret := CType.cVoid,
    params := [CType.cInt, CType.cPtrDouble, CType.cPtrDouble, CType.cPtrDouble] }

/-- Declaration of `leapfrog_estimate_step` as written in the header:
`double leapfrog_estimate_step(void (*func)(int, double, double *, double *,
int, double *), int, double *, double *, double, double, int, double *,
double, double)`. -/
def leapfrog_estimate_step_decl : CDecl :=
  { ret := CType.cDouble,
    params := [CType.cFuncPtr, CType.cInt, CType.cPtrDouble, CType.cPtrDouble,
               CType.cDouble, CType.cDouble, CType.cInt, CType.cPtrDouble,
               CType.cDouble, CType.cDouble] }

/-- All five function declarations of the header. -/
def header_decls : List CDecl :=
  [leapfrog_decl, leapfrog_leapq_decl, leapfrog_leapp_decl, save_qp_decl,
   leapfrog_estimate_step_decl]

/-- The parameter types of the acceleration callback, as declared in the
function-pointer type of `leapfrog` and `leapfrog_estimate_step`:
`(int, double, double *, double *, int, double *)`, read as
(dimension, time, position array, output acceleration array,
count of extra arguments, pointer to extra arguments). -/
def accel_callback_params : List CType :=
  [CType.cInt, CType.cDouble, CType.cPtrDouble, CType.cPtrDouble, CType.cInt,
   CType.cPtrDouble]

/-! ### The behavioural model, modelled from the spec -/

/-- A C `double` array: a coordinate vector, embedded as a function from
index to exact rational.  Only indices `< dim` belong to the abstraction. -/
def Vec : Type := ℕ → ℚ

/-- The all-zero vector. -/
def vecZero : Vec := fun _ => 0

/-- The all-one vector. -/
def vecOne : Vec := fun _ => 1

/-- A phase-space state: a position vector and a momentum vector. -/
@[ext]
structure State where
  q : Vec
  p : Vec

/-- A default state (used only as the fallback of `List.getD`). -/
def dState : State := { q := vecZero, p := vecZero }

/-- The acceleration callback, following the declared C function-pointer
type: it receives the dimension, the time, the position vector, and the
count/pointer of fixed extra arguments, and produces the acceleration
vector (its C output array).  The momentum is not among its parameters. -/
def AccelFn : Type := ℤ → ℚ → Vec → ℤ → Vec → Vec

/-- Modelled from the spec: the drift sub-step `leapfrog_leapq`
(body absent from the source fragment): advances position by a drift
sub-step of length `dt` using the current momentum,
`position ← position + dt·momentum` (mass normalized to 1).  Pure: the
returned vector is the written `result` array. -/
def leapfrog_leapq (_dim : ℤ) (q p : Vec) (dt : ℚ) : Vec :=
  fun i => q i + dt * p i

/-- Modelled from the spec and the declared signature: the kick sub-step
`leapfrog_leapp` (body absent from the source fragment): advances momentum
by a kick sub-step of length `dt` using the supplied acceleration vector `a`,
`momentum ← momentum + dt·a`.  Pure: the returned vector is the written
`result` array.  Note the declared C signature
`(int, double *, double, double *, double *)` passes a precomputed
acceleration array, not a callback. -/
def leapfrog_leapp (_dim : ℤ) (p : Vec) (dt : ℚ) (a : Vec) : Vec :=
  fun i => p i + dt * a i

/-- How the integrator invokes the acceleration callback: it passes the
dimension, the time, the position vector and the fixed extra arguments —
never the momentum. -/
def invoke_accel (func : AccelFn) (dim nargs : ℤ) (args : Vec) (t : ℚ)
    (q : Vec) : Vec :=
  func dim t q nargs args

/-- Modelled from the spec: one half-kick/drift/half-kick leapfrog sub-step
of size `h` taken at time `t` (the body of `leapfrog` is absent from the
source fragment). -/
def leapfrog_step (func : AccelFn) (dim nargs : ℤ) (args : Vec) (t h : ℚ)
    (s : State) : State :=
  let phalf := leapfrog_leapp dim s.p (h / 2) (invoke_accel func dim nargs args t s.q)
  let qnew := leapfrog_leapq dim s.q phalf h
  let pnew := leapfrog_leapp dim phalf (h / 2) (invoke_accel func dim nargs args (t + h) qnew)
  { q := qnew, p := pnew }

/-- Modelled from the spec: `n` consecutive leapfrog sub-steps of size `h`,
the first taken at time `t`. -/
def leapfrog_steps (func : AccelFn) (dim nargs : ℤ) (args : Vec) :
    ℚ → ℚ → ℕ → State → State
  | _, _, 0, s => s
  | t, h, Nat.succ n, s =>
      leapfrog_steps func dim nargs args (t + h) h n
        (leapfrog_step func dim nargs args t h s)

/-- Modelled from the spec: integration from time `t1` to time `t2` using
`n` equal sub-steps of size `(t2 - t1)/n` (the spec's design choice of
snapping sub-steps so that they land exactly on requested output times). -/
def leapfrog_segment (func : AccelFn) (dim nargs : ℤ) (args : Vec)
    (t1 t2 : ℚ) (n : ℕ) (s : State) : State :=
  leapfrog_steps func dim nargs args t1 ((t2 - t1) / n) n s

/-- Modelled from the spec: the recording loop.  `leapfrog_record ... t s rest`
returns the state `s` at the current output time `t` followed by one state per
remaining output time in `rest`, each obtained by integrating the previous
recorded state over the corresponding time interval.  `nsub t t'` models the
sub-step count chosen by the step-size estimation for the interval `[t, t']`
(at least one sub-step is always taken). -/
def leapfrog_record (func : AccelFn) (dim nargs : ℤ) (args : Vec)
    (nsub : ℚ → ℚ → ℕ) : ℚ → State → List ℚ → List State
  | _, s, [] => [s]
  | t, s, t' :: rest =>
      s :: leapfrog_record func dim nargs args nsub t'
        (leapfrog_segment func dim nargs args t t' (max 1 (nsub t t')) s) rest

/-- Modelled from the spec: the trajectory produced for a validated call —
the initial state is recorded at the initial time `times[0]`, and one state
is recorded per requested output time, in the order of `times`. -/
def leapfrog_run (func : AccelFn) (dim : ℤ) (q0 p0 : Vec) (times : List ℚ)
    (nargs : ℤ) (args : Vec) (nsub : ℚ → ℚ → ℕ) : List State :=
  match times with
  | [] => []
  | t0 :: rest => leapfrog_record func dim nargs args nsub t0 { q := q0, p := p0 } rest

/-- Whether a list of output times is strictly increasing. -/
def strictlyIncreasing : List ℚ → Bool
  | [] => true
  | [_] => true
  | a :: b :: rest => decide (a < b) && strictlyIncreasing (b :: rest)

/-- The error taxonomy of the spec that is decidable on the inputs
(`InvalidDimension`, `NonMonotonicTimes`); the exact-arithmetic model has no
non-finite values, so `NumericalDivergence` and `StepUnderflow` cannot arise. -/
inductive IntegrateError where
  | invalidDimension : IntegrateError
  | nonMonotonicTimes : IntegrateError
deriving DecidableEq

/-- Modelled from the spec: the `leapfrog` entry point (body absent from the
source fragment).  Validates the inputs — `dim <= 0` fails with
`InvalidDimension`, a non-strictly-increasing time sequence fails with
`NonMonotonicTimes`, each detected at the point of occurrence and surfaced
immediately — and otherwise fills the output with one state per requested
time.  `nsub` models the adaptive sub-step count derived from the accuracy
parameters `_rtol`/`_atol` by the step-size estimation. -/
def leapfrog (func : AccelFn) (dim : ℤ) (q0 p0 : Vec) (times : List ℚ)
    (nargs : ℤ) (args : Vec) (nsub : ℚ → ℚ → ℕ) (_rtol _atol : ℚ) :
    Except IntegrateError (List State) :=
  if dim ≤ 0 then Except.error IntegrateError.invalidDimension
  else if strictlyIncreasing times then
    Except.ok (leapfrog_run func dim q0 p0 times nargs args nsub)
  else Except.error IntegrateError.nonMonotonicTimes

/-- The acceleration callback that always returns the zero vector. -/
def accelZero : AccelFn := fun _ _ _ _ _ => vecZero

/-- The simple-harmonic-oscillator acceleration callback, `a = -x`. -/
def shoAccel : AccelFn := fun _ _ q _ _ => fun i => -(q i)

/-- The total energy of a one-dimensional state, `½(p² + x²)`. -/
def energy (s : State) : ℚ := (s.p 0 ^ 2 + s.q 0 ^ 2) / 2

/-! ### Component lemmas for the sub-step -/

theorem leapfrog_step_q (func : AccelFn) (dim nargs : ℤ) (args : Vec)
    (t h : ℚ) (s : State) (i : ℕ) :
    (leapfrog_step func dim nargs args t h s).q i =
      s.q i + h * (s.p i + h / 2 * invoke_accel func dim nargs args t s.q i) := rfl

theorem leapfrog_step_p (func : AccelFn) (dim nargs : ℤ) (args : Vec)
    (t h : ℚ) (s : State) (i : ℕ) :
    (leapfrog_step func dim nargs args t h s).p i =
      (s.p i + h / 2 * invoke_accel func dim nargs args t s.q i) +
        h / 2 * invoke_accel func dim nargs args (t + h)
          (leapfrog_step func dim nargs args t h s).q i := rfl

theorem leapfrog_step_reverse_q (func : AccelFn) (dim nargs : ℤ) (args : Vec)
    (t h : ℚ) (s : State) :
    (leapfrog_step func dim nargs args (t + h) (-h)
      (leapfrog_step func dim nargs args t h s)).q = s.q := by
  funext i
  simp only [leapfrog_step_q, leapfrog_step_p]
  ring

theorem leapfrog_step_reverse (func : AccelFn) (dim nargs : ℤ) (args : Vec)
    (t h : ℚ) (s : State) :
    leapfrog_step func dim nargs args (t + h) (-h)
      (leapfrog_step func dim nargs args t h s) = s := by
  have hq := leapfrog_step_reverse_q func dim nargs args t h s
  have ht : t + h + -h = t := by ring
  have hp : (leapfrog_step func dim nargs args (t + h) (-h)
      (leapfrog_step func dim nargs args t h s)).p = s.p := by
    funext i
    rw [leapfrog_step_p, hq, ht]
    simp only [leapfrog_step_p, leapfrog_step_q]
    ring
  exact State.ext hq hp

theorem leapfrog_steps_succ (func : AccelFn) (dim nargs : ℤ) (args : Vec)
    (t h : ℚ) (n : ℕ) (s : State) :
    leapfrog_steps func dim nargs args t h (n + 1) s =
      leapfrog_steps func dim nargs args (t + h) h n
        (leapfrog_step func dim nargs args t h s) := rfl

theorem leapfrog_steps_succ_last (func : AccelFn) (dim nargs : ℤ) (args : Vec)
    (h : ℚ) : ∀ (n : ℕ) (t : ℚ) (s : State),
    leapfrog_steps func dim nargs args t h (n + 1) s =
      leapfrog_step func dim nargs args (t + n * h) h
        (leapfrog_steps func dim nargs args t h n s) := by
  intro n
  induction n with
  | zero => intro t s; simp [leapfrog_steps]
  | succ n ih =>
      intro t s
      rw [leapfrog_steps_succ func dim nargs args t h (n + 1) s, ih (t + h)]
      have e2 : leapfrog_steps func dim nargs args (t + h) h n
            (leapfrog_step func dim nargs args t h s)
          = leapfrog_steps func dim nargs args t h (n + 1) s := rfl
      have e3 : t + h + (n : ℚ) * h = t + ((n + 1 : ℕ) : ℚ) * h := by
        push_cast; ring
      rw [e2, e3]

theorem leapfrog_steps_reverse (func : AccelFn) (dim nargs : ℤ) (args : Vec)
    (h : ℚ) : ∀ (n : ℕ) (t : ℚ) (s : State),
    leapfrog_steps func dim nargs args (t + n * h) (-h) n
      (leapfrog_steps func dim nargs args t h n s) = s := by
  intro n
  induction n with
  | zero => intro t s; rfl
  | succ n ih =>
      intro t s
      have hT : t + ((n + 1 : ℕ) : ℚ) * h = (t + (n : ℚ) * h) + h := by
        push_cast; ring
      rw [hT, leapfrog_steps_succ_last func dim nargs args h n t s]
      rw [leapfrog_steps_succ func dim nargs args ((t + (n : ℚ) * h) + h) (-h) n
        (leapfrog_step func dim nargs args (t + (n : ℚ) * h) h
          (leapfrog_steps func dim nargs args t h n s))]
      rw [leapfrog_step_reverse func dim nargs args (t + (n : ℚ) * h) h
        (leapfrog_steps func dim nargs args t h n s)]
      have e : t + (n : ℚ) * h + h + -h = t + (n : ℚ) * h := by ring
      rw [e]
      exact ih t s

/-- C2: the drift operation writes `position + h * momentum` componentwise
into the result; in this pure embedding the returned vector is the entire
effect of the operation (mass is normalized to 1). -/
theorem c2_leap_position_drift (dim : ℤ) (q p : Vec) (h : ℚ) (i : ℕ) :
    leapfrog_leapq dim q p h i = q i + h * p i := rfl

/-- C3 fails as stated: the declared parameter types of `leapfrog_leapp` in
the header are `(int, double *, double, double *, double *)` — there is no
function-pointer parameter, so the kick step is not handed an acceleration
callback to evaluate; it receives a precomputed acceleration array instead. -/
theorem c3_counterexample_no_callback_param :
    CType.cFuncPtr ∉ leapfrog_leapp_decl.params := by decide

/-- C3 (amended): the kick operation advances momentum by `h` times the
caller-supplied acceleration vector (previously evaluated at the current
position by the caller), writing the result componentwise; its declared
parameter types contain no callback. -/
theorem c3_leap_momentum_kick (dim : ℤ) (p : Vec) (h : ℚ) (a : Vec) (i : ℕ) :
    leapfrog_leapp dim p h a i = p i + h * a i ∧
      leapfrog_leapp_decl.params =
        [CType.cInt, CType.cPtrDouble, CType.cDouble, CType.cPtrDouble,
         CType.cPtrDouble] :=
  ⟨rfl, rfl⟩

/-- C5: integrating forward from any state to time `T` with `n` leapfrog
sub-steps and then integrating backward from the resulting state to time `0`
with `n` sub-steps recovers the initial state — in this exact-arithmetic
embedding the round trip is exact, hence in particular within any
truncation-error tolerance. -/
theorem c5_time_reversal_round_trip (func : AccelFn) (dim nargs : ℤ)
    (args : Vec) (T : ℚ) (n : ℕ) (s : State) :
    leapfrog_segment func dim nargs args T 0 n
      (leapfrog_segment func dim nargs args 0 T n s) = s := by
  cases n with
  | zero => rfl
  | succ n =>
      have hne : ((n + 1 : ℕ) : ℚ) ≠ 0 := Nat.cast_ne_zero.mpr (Nat.succ_ne_zero n)
      have key := leapfrog_steps_reverse func dim nargs args
        ((T - 0) / ((n + 1 : ℕ) : ℚ)) (n + 1) 0 s
      have e1 : (0 : ℚ) + ((n + 1 : ℕ) : ℚ) * ((T - 0) / ((n + 1 : ℕ) : ℚ)) = T := by
        field_simp
      have e2 : -((T - 0) / ((n + 1 : ℕ) : ℚ)) = (0 - T) / ((n + 1 : ℕ) : ℚ) := by
        ring
      rw [e1, e2] at key
      exact key

/-- C9: the `leapfrog` entry point is declared `void`, and none of the five
declared operations has an error channel in its declared interface: every
return type is `void` or `double` (a step size), and no parameter is an
`int *` through which an error code could be written back. -/
theorem c9_no_error_channel :
    leapfrog_decl.ret = CType.cVoid ∧
      ∀ d ∈ header_decls,
        CType.cPtrInt ∉ d.params ∧
          (d.ret = CType.cVoid ∨ d.ret = CType.cDouble) := by
  decide

/-- Witness for C9 at the `leapfrog` declaration itself. -/
theorem c9_no_error_channel_witness :
    CType.cPtrInt ∉ leapfrog_decl.params ∧
      (leapfrog_decl.ret = CType.cVoid ∨ leapfrog_decl.ret = CType.cDouble) :=
  c9_no_error_channel.2 leapfrog_decl (by decide)

/-- C10: the declared acceleration-callback parameters are exactly
(dimension, time, position array, output acceleration array, count of extra
arguments, pointer to extra arguments) — the momentum is not passed — and
consequently the acceleration the integrator computes for two states with
equal position at equal time is identical, whatever their momenta. -/
theorem c10_accel_independent_of_momentum :
    accel_callback_params =
        [CType.cInt, CType.cDouble, CType.cPtrDouble, CType.cPtrDouble,
         CType.cInt, CType.cPtrDouble] ∧
      ∀ (func : AccelFn) (dim nargs : ℤ) (args : Vec) (t : ℚ) (s1 s2 : State),
        s1.q = s2.q →
          invoke_accel func dim nargs args t s1.q =
            invoke_accel func dim nargs args t s2.q := by
  refine ⟨rfl, ?_⟩
  intro func dim nargs args t s1 s2 hq
  rw [hq]

/-- A concrete callback (acceleration equal to position) used by the C10
witness. -/
def accelPos : AccelFn := fun _ _ q _ _ => q

/-- A concrete state with zero position and zero momentum. -/
def sA : State := { q := vecZero, p := vecZero }

/-- A concrete state with zero position and unit momentum. -/
def sB : State := { q := vecZero, p := vecOne }

/-- Witness for C10: two concrete states with equal position but different
momenta receive identical accelerations. -/
theorem c10_accel_independent_of_momentum_witness :
    sA.q = sB.q ∧ sA.p 0 ≠ sB.p 0 ∧
      invoke_accel accelPos 1 0 vecZero 0 sA.q =
        invoke_accel accelPos 1 0 vecZero 0 sB.q :=
  ⟨rfl, by norm_num [sA, sB, vecZero, vecOne],
    c10_accel_independent_of_momentum.2 accelPos 1 0 vecZero 0 sA sB rfl⟩

/-- C7: every call with `dim ≤ 0` fails with `InvalidDimension`: the check is
the first thing the entry point performs, and the error is returned
immediately — no trajectory is produced. -/
theorem c7_invalid_dimension (func : AccelFn) (dim : ℤ) (q0 p0 : Vec)
    (times : List ℚ) (nargs : ℤ) (args : Vec) (nsub : ℚ → ℚ → ℕ)
    (rtol atol : ℚ) (hdim : dim ≤ 0) :
    leapfrog func dim q0 p0 times nargs args nsub rtol atol =
      Except.error IntegrateError.invalidDimension := by
  unfold leapfrog
  rw [if_pos hdim]

/-- Witness for C7 at `dim = 0`. -/
theorem c7_invalid_dimension_witness :
    (0 : ℤ) ≤ 0 ∧
      leapfrog accelZero 0 vecZero vecZero [0] 0 vecZero (fun _ _ => 1) 0 0 =
        Except.error IntegrateError.invalidDimension :=
  ⟨le_refl 0, c7_invalid_dimension accelZero 0 vecZero vecZero [0] 0 vecZero
    (fun _ _ => 1) 0 0 (le_refl 0)⟩

/-- C8: every call with a valid dimension whose time sequence is not strictly
increasing fails with `NonMonotonicTimes`: no output is produced and the
times are not reordered.  (When `dim ≤ 0` as well, the dimension check fires
first and `InvalidDimension` is reported instead.) -/
theorem c8_non_monotonic_times (func : AccelFn) (dim : ℤ) (q0 p0 : Vec)
    (times : List ℚ) (nargs : ℤ) (args : Vec) (nsub : ℚ → ℚ → ℕ)
    (rtol atol : ℚ) (hdim : 0 < dim)
    (hmono : strictlyIncreasing times = false) :
    leapfrog func dim q0 p0 times nargs args nsub rtol atol =
      Except.error IntegrateError.nonMonotonicTimes := by
  unfold leapfrog
  rw [if_neg (not_le.mpr hdim), hmono]
  rfl

/-- Witness for C8 at the spec's example `times = [0, 1, 0.5]`. -/
theorem c8_non_monotonic_times_witness :
    (0 : ℤ) < 1 ∧ strictlyIncreasing [0, 1, 1/2] = false ∧
      leapfrog accelZero 1 vecZero vecZero [0, 1, 1/2] 0 vecZero
          (fun _ _ => 1) 0 0 =
        Except.error IntegrateError.nonMonotonicTimes := by
  have hmono : strictlyIncreasing [0, 1, 1/2] = false := by
    norm_num [strictlyIncreasing]
  exact ⟨by norm_num, hmono, c8_non_monotonic_times accelZero 1 vecZero vecZero
    [0, 1, 1/2] 0 vecZero (fun _ _ => 1) 0 0 (by norm_num) hmono⟩

/-! ### Lemmas on the recording loop -/

theorem leapfrog_record_length (func : AccelFn) (dim nargs : ℤ) (args : Vec)
    (nsub : ℚ → ℚ → ℕ) : ∀ (rest : List ℚ) (t : ℚ) (s : State),
    (leapfrog_record func dim nargs args nsub t s rest).length =
      rest.length + 1 := by
  intro rest
  induction rest with
  | nil => intro t s; rfl
  | cons t' r ih => intro t s; simp [leapfrog_record, ih]

theorem leapfrog_record_getD_zero (func : AccelFn) (dim nargs : ℤ)
    (args : Vec) (nsub : ℚ → ℚ → ℕ) (t : ℚ) (s : State) (rest : List ℚ) :
    (leapfrog_record func dim nargs args nsub t s rest).getD 0 dState = s := by
  cases rest <;> rfl

theorem leapfrog_record_getD_succ (func : AccelFn) (dim nargs : ℤ)
    (args : Vec) (nsub : ℚ → ℚ → ℕ) :
    ∀ (rest : List ℚ) (t : ℚ) (s : State) (i : ℕ), i < rest.length →
      (leapfrog_record func dim nargs args nsub t s rest).getD (i + 1) dState =
        leapfrog_segment func dim nargs args ((t :: rest).getD i 0)
          (rest.getD i 0)
          (max 1 (nsub ((t :: rest).getD i 0) (rest.getD i 0)))
          ((leapfrog_record func dim nargs args nsub t s rest).getD i dState) := by
  intro rest
  induction rest with
  | nil => intro t s i hi; exact absurd hi (Nat.not_lt_zero i)
  | cons t' r ih =>
      intro t s i hi
      cases i with
      | zero =>
          show (s :: leapfrog_record func dim nargs args nsub t'
              (leapfrog_segment func dim nargs args t t' (max 1 (nsub t t')) s)
              r).getD 1 dState = _
          simp only [List.getD_cons_zero, List.getD_cons_succ]
          rw [leapfrog_record_getD_zero, leapfrog_record_getD_zero]
      | succ j =>
          have hj : j < r.length := by simpa using hi
          simp only [leapfrog_record, List.getD_cons_succ]
          exact ih t'
            (leapfrog_segment func dim nargs args t t' (max 1 (nsub t t')) s) j hj

/-- C1: a validated call (positive dimension, strictly increasing times)
returns a trajectory with exactly one recorded state per requested output
time, in the order of `times`: the first recorded state is the initial state
at `times[0]`, and the state recorded for each later time is the integration
of the previously recorded state over the corresponding time interval. -/
theorem c1_one_state_per_time (func : AccelFn) (dim : ℤ) (q0 p0 : Vec)
    (times : List ℚ) (nargs : ℤ) (args : Vec) (nsub : ℚ → ℚ → ℕ)
    (rtol atol : ℚ) (hdim : 0 < dim)
    (hmono : strictlyIncreasing times = true) :
    ∃ out, leapfrog func dim q0 p0 times nargs args nsub rtol atol =
        Except.ok out ∧
      out.length = times.length ∧
      (0 < times.length → out.getD 0 dState = { q := q0, p := p0 }) ∧
      (∀ i, i + 1 < times.length →
        out.getD (i + 1) dState =
          leapfrog_segment func dim nargs args (times.getD i 0)
            (times.getD (i + 1) 0)
            (max 1 (nsub (times.getD i 0) (times.getD (i + 1) 0)))
            (out.getD i dState)) := by
  refine ⟨leapfrog_run func dim q0 p0 times nargs args nsub, ?_, ?_, ?_, ?_⟩
  · unfold leapfrog
    rw [if_neg (not_le.mpr hdim), hmono]
    rfl
  · cases times with
    | nil => rfl
    | cons t0 rest =>
        simp [leapfrog_run, leapfrog_record_length]
  · intro hlen
    cases times with
    | nil => simp at hlen
    | cons t0 rest =>
        exact leapfrog_record_getD_zero func dim nargs args nsub t0
          { q := q0, p := p0 } rest
  · intro i hi
    cases times with
    | nil => simp at hi
    | cons t0 rest =>
        have hi' : i < rest.length := by simpa using hi
        simp only [leapfrog_run, List.getD_cons_succ]
        exact leapfrog_record_getD_succ func dim nargs args nsub rest t0
          { q := q0, p := p0 } i hi'

/-- Witness for C1 on a concrete two-time call. -/
theorem c1_one_state_per_time_witness :
    (0 : ℤ) < 1 ∧ strictlyIncreasing [0, 1] = true ∧
      (∃ out, leapfrog accelZero 1 vecZero vecOne [0, 1] 0 vecZero
          (fun _ _ => 1) 0 0 = Except.ok out ∧
        out.length = [(0 : ℚ), 1].length ∧
        (0 < [(0 : ℚ), 1].length →
          out.getD 0 dState = { q := vecZero, p := vecOne }) ∧
        (∀ i, i + 1 < [(0 : ℚ), 1].length →
          out.getD (i + 1) dState =
            leapfrog_segment accelZero 1 0 vecZero ([(0 : ℚ), 1].getD i 0)
              ([(0 : ℚ), 1].getD (i + 1) 0)
              (max 1 ((fun _ _ => 1) ([(0 : ℚ), 1].getD i 0)
                ([(0 : ℚ), 1].getD (i + 1) 0)))
              (out.getD i dState))) := by
  have h1 : (0 : ℤ) < 1 := by norm_num
  have h2 : strictlyIncreasing [0, 1] = true := by norm_num [strictlyIncreasing]
  exact ⟨h1, h2, c1_one_state_per_time accelZero 1 vecZero vecOne [0, 1] 0
    vecZero (fun _ _ => 1) 0 0 h1 h2⟩

/-! ### Zero acceleration: pure drift -/

theorem leapfrog_step_zero_accel (dim nargs : ℤ) (args : Vec) (t h : ℚ)
    (s : State) :
    leapfrog_step accelZero dim nargs args t h s =
      { q := fun i => s.q i + h * s.p i, p := s.p } := by
  refine State.ext ?_ ?_
  · funext i
    rw [leapfrog_step_q]
    simp [invoke_accel, accelZero, vecZero]
  · funext i
    rw [leapfrog_step_p]
    simp [invoke_accel, accelZero, vecZero]

theorem leapfrog_steps_zero_accel (dim nargs : ℤ) (args : Vec) :
    ∀ (n : ℕ) (t h : ℚ) (s : State),
    leapfrog_steps accelZero dim nargs args t h n s =
      { q := fun i => s.q i + n * h * s.p i, p := s.p } := by
  intro n
  induction n with
  | zero =>
      intro t h s
      refine State.ext ?_ rfl
      funext i
      show s.q i = s.q i + ((0 : ℕ) : ℚ) * h * s.p i
      simp
  | succ n ih =>
      intro t h s
      rw [leapfrog_steps_succ, leapfrog_step_zero_accel, ih]
      refine State.ext ?_ rfl
      funext i
      show s.q i + h * s.p i + (n : ℚ) * h * s.p i =
        s.q i + ((n + 1 : ℕ) : ℚ) * h * s.p i
      push_cast
      ring

theorem leapfrog_segment_zero_accel (dim nargs : ℤ) (args : Vec)
    (t1 t2 : ℚ) (n : ℕ) (hn : n ≠ 0) (s : State) :
    leapfrog_segment accelZero dim nargs args t1 t2 n s =
      { q := fun i => s.q i + (t2 - t1) * s.p i, p := s.p } := by
  unfold leapfrog_segment
  rw [leapfrog_steps_zero_accel]
  refine State.ext ?_ rfl
  funext i
  show s.q i + (n : ℚ) * ((t2 - t1) / (n : ℚ)) * s.p i =
    s.q i + (t2 - t1) * s.p i
  have hne : (n : ℚ) ≠ 0 := Nat.cast_ne_zero.mpr hn
  have e : (n : ℚ) * ((t2 - t1) / (n : ℚ)) = t2 - t1 := by field_simp
  rw [e]

theorem leapfrog_record_zero_accel (dim nargs : ℤ) (args : Vec)
    (nsub : ℚ → ℚ → ℕ) (q0 p0 : Vec) (t0 : ℚ) :
    ∀ (rest : List ℚ) (t : ℚ) (s : State),
      (∀ i, s.q i = q0 i + (t - t0) * p0 i) → s.p = p0 →
      ∀ k, k < rest.length + 1 →
        (∀ i, ((leapfrog_record accelZero dim nargs args nsub t s rest).getD k
            dState).q i = q0 i + ((t :: rest).getD k 0 - t0) * p0 i) ∧
        ((leapfrog_record accelZero dim nargs args nsub t s rest).getD k
            dState).p = p0 := by
  intro rest
  induction rest with
  | nil =>
      intro t s hq hp k hk
      simp only [List.length_nil, Nat.zero_add, Nat.lt_one_iff] at hk
      subst hk
      constructor
      · intro i
        simpa [leapfrog_record] using hq i
      · simpa [leapfrog_record] using hp
  | cons t' r ih =>
      intro t s hq hp k hk
      cases k with
      | zero =>
          constructor
          · intro i
            simpa [leapfrog_record] using hq i
          · simpa [leapfrog_record] using hp
      | succ j =>
          have hmax : max 1 (nsub t t') ≠ 0 := by positivity
          have hseg := leapfrog_segment_zero_accel dim nargs args t t'
            (max 1 (nsub t t')) hmax s
          have hq' : ∀ i,
              (leapfrog_segment accelZero dim nargs args t t'
                (max 1 (nsub t t')) s).q i = q0 i + (t' - t0) * p0 i := by
            intro i
            rw [hseg]
            show s.q i + (t' - t) * s.p i = q0 i + (t' - t0) * p0 i
            rw [hq i, congrFun hp i]
            ring
          have hp' :
              (leapfrog_segment accelZero dim nargs args t t'
                (max 1 (nsub t t')) s).p = p0 := by
            rw [hseg]
            exact hp
          have hj : j < r.length + 1 := by simpa using hk
          have key := ih t'
            (leapfrog_segment accelZero dim nargs args t t'
              (max 1 (nsub t t')) s) hq' hp' j hj
          constructor
          · intro i
            have e : (leapfrog_record accelZero dim nargs args nsub t s
                (t' :: r)).getD (j + 1) dState =
                (leapfrog_record accelZero dim nargs args nsub t'
                  (leapfrog_segment accelZero dim nargs args t t'
                    (max 1 (nsub t t')) s) r).getD j dState := rfl
            rw [e, List.getD_cons_succ]
            exact key.1 i
          · have e : (leapfrog_record accelZero dim nargs args nsub t s
                (t' :: r)).getD (j + 1) dState =
                (leapfrog_record accelZero dim nargs args nsub t'
                  (leapfrog_segment accelZero dim nargs args t t'
                    (max 1 (nsub t t')) s) r).getD j dState := rfl
            rw [e]
            exact key.2

/-- C4 fails as stated: the integrator starts at `t = times[0]` (the spec's
initial-state convention), so the state recorded at a requested time `t` is
the drift over `t - times[0]`, not over `t`.  Concretely, with `a ≡ 0`,
`x₀ = 0`, `p₀ = 1` and `times = [1]`, the recorded position at the requested
output time `t = 1` is `0`, whereas the claim demands `x₀ + p₀·t = 1`. -/
theorem c4_counterexample_initial_time_offset :
    (∃ out, leapfrog accelZero 1 vecZero vecOne [1] 0 vecZero (fun _ _ => 1)
        0 0 = Except.ok out ∧ (out.getD 0 dState).q 0 = 0) ∧
      vecZero 0 + vecOne 0 * (1 : ℚ) = 1 ∧ (0 : ℚ) ≠ 1 := by
  refine ⟨⟨[{ q := vecZero, p := vecOne }], ?_, rfl⟩, ?_, ?_⟩
  · rfl
  · norm_num [vecZero, vecOne]
  · norm_num

/-- C4 (amended): with `a ≡ 0`, for every validated call the position
recorded at each requested output time `t` equals exactly
`x₀ + p₀·(t - times[0])` (the integration starts at `t = times[0]`), and the
recorded momentum equals `p₀`; when `times[0] = 0` this is the claim's
`x₀ + p₀·t`.  Pure drift, no error, for any sub-step choice. -/
theorem c4_zero_acceleration_drift (dim : ℤ) (q0 p0 : Vec) (times : List ℚ)
    (nargs : ℤ) (args : Vec) (nsub : ℚ → ℚ → ℕ) (rtol atol : ℚ)
    (hdim : 0 < dim) (hmono : strictlyIncreasing times = true) :
    ∃ out, leapfrog accelZero dim q0 p0 times nargs args nsub rtol atol =
        Except.ok out ∧
      ∀ k, k < times.length →
        (∀ i, (out.getD k dState).q i =
          q0 i + (times.getD k 0 - times.getD 0 0) * p0 i) ∧
        (out.getD k dState).p = p0 := by
  refine ⟨leapfrog_run accelZero dim q0 p0 times nargs args nsub, ?_, ?_⟩
  · unfold leapfrog
    rw [if_neg (not_le.mpr hdim), hmono]
    rfl
  · intro k hk
    cases times with
    | nil => simp at hk
    | cons t0 rest =>
        have hq0 : ∀ i, (State.mk q0 p0).q i = q0 i + (t0 - t0) * p0 i := by
          intro i
          show q0 i = q0 i + (t0 - t0) * p0 i
          ring
        have hk' : k < rest.length + 1 := by simpa using hk
        have key := leapfrog_record_zero_accel dim nargs args nsub q0 p0 t0
          rest t0 (State.mk q0 p0) hq0 rfl k hk'
        exact ⟨fun i => key.1 i, key.2⟩

/-- Witness for the amended C4 on a concrete call with `times = [0, 1]`. -/
theorem c4_zero_acceleration_drift_witness :
    (0 : ℤ) < 1 ∧ strictlyIncreasing [0, 1] = true ∧
      (∃ out, leapfrog accelZero 1 vecZero vecOne [0, 1] 0 vecZero
          (fun _ _ => 1) 0 0 = Except.ok out ∧
        ∀ k, k < [(0 : ℚ), 1].length →
          (∀ i, (out.getD k dState).q i =
            vecZero i + ([(0 : ℚ), 1].getD k 0 - [(0 : ℚ), 1].getD 0 0) *
              vecOne i) ∧
          (out.getD k dState).p = vecOne) := by
  have h1 : (0 : ℤ) < 1 := by norm_num
  have h2 : strictlyIncreasing [0, 1] = true := by norm_num [strictlyIncreasing]
  exact ⟨h1, h2, c4_zero_acceleration_drift 1 vecZero vecOne [0, 1] 0 vecZero
    (fun _ _ => 1) 0 0 h1 h2⟩

/-! ### Simple harmonic oscillator: a conserved quadratic form -/

/-- The modified quadratic form `(1 - h²/4)·x² + p²` that one leapfrog
sub-step of size `h` conserves exactly on the simple harmonic oscillator. -/
def shoQuad (h : ℚ) (s : State) : ℚ :=
  (1 - h ^ 2 / 4) * (s.q 0) ^ 2 + (s.p 0) ^ 2

theorem shoQuad_step (dim nargs : ℤ) (args : Vec) (t h : ℚ) (s : State) :
    shoQuad h (leapfrog_step shoAccel dim nargs args t h s) = shoQuad h s := by
  simp only [shoQuad, leapfrog_step_p, leapfrog_step_q, invoke_accel, shoAccel]
  ring

theorem shoQuad_steps (dim nargs : ℤ) (args : Vec) (h : ℚ) :
    ∀ (n : ℕ) (t : ℚ) (s : State),
      shoQuad h (leapfrog_steps shoAccel dim nargs args t h n s) =
        shoQuad h s := by
  intro n
  induction n with
  | zero => intro t s; rfl
  | succ n ih =>
      intro t s
      rw [leapfrog_steps_succ, ih, shoQuad_step]

/-- C6: on the simple harmonic oscillator `a = -x`, for any number `n` of
leapfrog sub-steps of any stable size `h` (`h² < 4`), the total energy
`½(p² + x²)` stays within the fixed band
`h²/8·(x₀² + p₀²)/(1 - h²/4)` around its initial value — a bound independent
of `n`, so the energy error oscillates within a band and cannot drift
monotonically with integration time. -/
theorem c6_sho_energy_bounded (dim nargs : ℤ) (args : Vec) (t h : ℚ)
    (s : State) (hh : h ^ 2 < 4) (n : ℕ) :
    |energy (leapfrog_steps shoAccel dim nargs args t h n s) - energy s| ≤
      h ^ 2 / 8 * ((s.q 0) ^ 2 + (s.p 0) ^ 2) / (1 - h ^ 2 / 4) := by
  have hc : 0 < 1 - h ^ 2 / 4 := by linarith
  have hQ := shoQuad_steps dim nargs args h n t s
  simp only [shoQuad] at hQ
  set s' := leapfrog_steps shoAccel dim nargs args t h n s with hs'
  simp only [energy]
  rw [abs_le]
  constructor
  · rw [neg_le, neg_sub, le_div_iff₀ hc]
    nlinarith [hQ, hc.le, sq_nonneg h, sq_nonneg (s'.q 0), sq_nonneg (s'.p 0),
      sq_nonneg (s.q 0), sq_nonneg (s.p 0),
      mul_nonneg (sq_nonneg h) (sq_nonneg (s'.q 0)),
      mul_nonneg (sq_nonneg h) (sq_nonneg (s'.p 0)),
      mul_nonneg (sq_nonneg h) (sq_nonneg (s.q 0)),
      mul_nonneg (sq_nonneg h) (sq_nonneg (s.p 0)),
      mul_nonneg (mul_nonneg (sq_nonneg h) (sq_nonneg h)) (sq_nonneg (s.q 0)),
      mul_nonneg (mul_nonneg (sq_nonneg h) (sq_nonneg h)) (sq_nonneg (s'.q 0)),
      mul_nonneg hc.le (sq_nonneg (s'.q 0)),
      mul_nonneg hc.le (sq_nonneg (s'.p 0))]
  · rw [le_div_iff₀ hc]
    nlinarith [hQ, hc.le, sq_nonneg h, sq_nonneg (s'.q 0), sq_nonneg (s'.p 0),
      sq_nonneg (s.q 0), sq_nonneg (s.p 0),
      mul_nonneg (sq_nonneg h) (sq_nonneg (s'.q 0)),
      mul_nonneg (sq_nonneg h) (sq_nonneg (s'.p 0)),
      mul_nonneg (sq_nonneg h) (sq_nonneg (s.q 0)),
      mul_nonneg (sq_nonneg h) (sq_nonneg (s.p 0)),
      mul_nonneg (mul_nonneg (sq_nonneg h) (sq_nonneg h)) (sq_nonneg (s.q 0)),
      mul_nonneg (mul_nonneg (sq_nonneg h) (sq_nonneg h)) (sq_nonneg (s'.q 0)),
      mul_nonneg hc.le (sq_nonneg (s'.q 0)),
      mul_nonneg hc.le (sq_nonneg (s'.p 0))]

/-- Witness for C6: three sub-steps of size `h = 1` from `(x, p) = (1, 0)`. -/
theorem c6_sho_energy_bounded_witness :
    (1 : ℚ) ^ 2 < 4 ∧
      |energy (leapfrog_steps shoAccel 1 0 vecZero 0 1 3
          { q := vecOne, p := vecZero }) -
        energy { q := vecOne, p := vecZero }| ≤
        (1 : ℚ) ^ 2 / 8 * ((vecOne 0) ^ 2 + (vecZero 0) ^ 2) /
          (1 - (1 : ℚ) ^ 2 / 4) :=
  ⟨by norm_num, c6_sho_energy_bounded 1 0 vecZero 0 1
    { q := vecOne, p := vecZero } (by norm_num) 3⟩
